import Mathlib

set_option maxRecDepth 10000

/-!
Verification of the ingestion-to-embedding pipeline in
`project_ask_ai_dagster/assets/ingestion.py`.

The pipeline's own logic (everything not delegated to external services) is
modelled shallowly:

* Python metadata values (`str`, `int`, `float`, `bool`, `None`, lists,
  nested dicts) become the inductive type `Value`.  Floats are carried as an
  opaque IEEE-754 bit pattern (`Nat`): the pipeline never computes with a
  float, it only inspects the runtime type tag via `isinstance`.
* A langchain `Document` becomes the structure `Document` with its
  `page_content` string and insertion-ordered `metadata` association list
  (Python dicts preserve insertion order and have unique keys).
* The OpenAI embeddings client is an external collaborator; each asset model
  takes it as a parameter `embed : List String → List (List Q)` (one vector,
  an ordered list of scalars drawn from an arbitrary type `Q`, per input
  text — assumptions about its behaviour appear as explicit hypotheses).
* The Pinecone client is external; the model records exactly the
  `(id, vector, metadata)` triples the asset passes to `upsert`
  (`zip` truncates to the shortest input, as in Python).
* `time.sleep` and the embedding calls are recorded in an event trace so
  that temporal claims about the loop body can be stated.
* `hashlib.md5(...).hexdigest()` is modelled by a full implementation of
  RFC 1321 MD5 over UTF-8 bytes, emitting lowercase hexadecimal.
-/

/-- A Python metadata value as stored in `Document.metadata`.  `VFloat`
carries the float opaquely as its bit pattern: the source only ever asks
`isinstance(v, (str, int, float, bool))`, never looks inside a float. -/
inductive Value where
  | VStr : String → Value
  | VInt : Int → Value
  | VFloat : Nat → Value
  | VBool : Bool → Value
  | VNone : Value
  | VList : List Value → Value
  | VDict : List (String × Value) → Value

/-- `isinstance(v, (str, int, float, bool))` from the metadata-cleaning
comprehensions (ingestion.py lines 108, 226, 363). -/
def isPrimitive : Value → Bool
  | Value.VStr _ => true
  | Value.VInt _ => true
  | Value.VFloat _ => true
  | Value.VBool _ => true
  | _ => false

/-- A metadata mapping: insertion-ordered key/value pairs (a Python dict). -/
abbrev Metadata : Type := List (String × Value)

/-- `{k: v for k, v in doc.metadata.items() if isinstance(v, (str, int, float, bool))}`
(ingestion.py lines 108, 226, 363).  Iterating a dict yields its entries in
insertion order with unique keys, so the comprehension is a filter. -/
def sanitize (m : Metadata) : Metadata :=
  m.filter (fun kv => isPrimitive kv.2)

/-- A langchain `Document`: text plus a metadata mapping. -/
structure Document where
  page_content : String
  metadata : Metadata

/-- Observable side effects of an asset run, over scalar type `Q`:
an embedding-provider call (input texts and returned vectors) or a
`time.sleep` (duration in milliseconds). -/
inductive Event (Q : Type) where
  | embedCall : List String → List (List Q) → Event Q
  | sleep : Nat → Event Q

/-- Number of embedding-provider calls in a trace. -/
def countCalls {Q : Type} : List (Event Q) → Nat
  | [] => 0
  | Event.embedCall _ _ :: es => countCalls es + 1
  | Event.sleep _ :: es => countCalls es

/-- The successive inputs of the embedding-provider calls in a trace. -/
def callInputs {Q : Type} : List (Event Q) → List (List String)
  | [] => []
  | Event.embedCall ts _ :: es => ts :: callInputs es
  | Event.sleep _ :: es => callInputs es

/-- Python `range(0, stop, step)` for `step > 0`: the multiples of `step`
below `stop`, in increasing order, modelled as a filter of `List.range`.
(For `step = 0` Python raises; the source only uses positive steps.) -/
def pyRange (stop step : Nat) : List Nat :=
  (List.range stop).filter (fun i => i % step == 0)

/-- Python slice `xs[i : j]` (for the in-range, `i ≤ j` uses the source
makes): drop `i` elements, keep at most `j - i`. -/
def pySlice {α : Type} (xs : List α) (i j : Nat) : List α :=
  (xs.drop i).take (j - i)

/-- `for i in range(0, len(xs), B): chunk = xs[i : i + B]`
(ingestion.py lines 213-214): the consecutive chunks of `xs` of size at
most `B`.  The source fixes `B = BATCH_SIZE = 20`. -/
def chunkList {α : Type} (B : Nat) (xs : List α) : List (List α) :=
  (pyRange xs.length B).map (fun i => pySlice xs i (i + B))

/-- The body of the batched embedding loop (ingestion.py lines 213-222),
applied to the precomputed chunks: each iteration calls the provider on one
chunk, extends the accumulated embeddings, and sleeps one second.  Returns
the accumulated embeddings and the event trace. -/
def batchLoop {Q : Type} (embed : List String → List (List Q)) :
    List (List String) → List (List Q) × List (Event Q)
  | [] => ([], [])
  | c :: cs =>
    let vs := embed c
    let rest := batchLoop embed cs
    (vs ++ rest.1, Event.embedCall c vs :: Event.sleep 1000 :: rest.2)

/-- The batched embedding step of `github_discussions_embeddings`
(ingestion.py lines 211-222): chunk the texts, run the loop. -/
def batchedEmbed {Q : Type} (embed : List String → List (List Q)) (B : Nat)
    (texts : List String) : List (List Q) × List (Event Q) :=
  batchLoop embed (chunkList B texts)

/-- Python's three-argument `zip`: truncates to the shortest sequence. -/
def zip3 {α β γ : Type} (as : List α) (bs : List β) (cs : List γ) :
    List (α × β × γ) :=
  as.zip (bs.zip cs)

/-- What one embedding-asset run produces and does: the intermediate
sequences, the `(id, vector, metadata)` records passed to `index.upsert`,
the event trace, and the document count reported in the result metadata. -/
structure AssetRun (Q : Type) where
  texts : List String
  embeddings : List (List Q)
  metadatas : List Metadata
  ids : List String
  records : List (String × List Q × Metadata)
  trace : List (Event Q)
  resultCount : Nat

/-- `github_issues_embeddings` (ingestion.py lines 90-126): one embedding
call on all texts, metadata cleaning, sequential ids `str(i)`, upsert of the
zipped triples, result metadata `number_of_issues`. -/
def github_issues_embeddings {Q : Type} (embed : List String → List (List Q))
    (docs : List Document) : AssetRun Q :=
  let texts := docs.map (fun d => d.page_content)
  let embeddings := embed texts
  let metadata := docs.map (fun d => sanitize d.metadata)
  let ids := (List.range texts.length).map (fun i => toString i)
  { texts := texts
    embeddings := embeddings
    metadatas := metadata
    ids := ids
    records := zip3 ids embeddings metadata
    trace := [Event.embedCall texts embeddings]
    resultCount := docs.length }

/-- `github_discussions_embeddings` (ingestion.py lines 196-244): embedding
in batches of `BATCH_SIZE = 20` with a one-second sleep after each batch,
metadata cleaning, sequential ids `str(i)`, upsert of the zipped triples,
result metadata `number_of_discussions`. -/
def github_discussions_embeddings {Q : Type}
    (embed : List String → List (List Q)) (docs : List Document) :
    AssetRun Q :=
  let BATCH_SIZE := 20
  let all_texts := docs.map (fun d => d.page_content)
  let loop := batchedEmbed embed BATCH_SIZE all_texts
  let all_embeddings := loop.1
  let metadata := docs.map (fun d => sanitize d.metadata)
  let ids := (List.range all_texts.length).map (fun i => toString i)
  { texts := all_texts
    embeddings := all_embeddings
    metadatas := metadata
    ids := ids
    records := zip3 ids all_embeddings metadata
    trace := loop.2
    resultCount := docs.length }

/-! ### MD5 (RFC 1321), modelling `hashlib.md5(...).hexdigest()`

`docs_embedding` derives each document id as
`hashlib.md5(doc.metadata["source"].encode()).hexdigest()` (line 367).
`hashlib` and `str.encode` are standard-library collaborators; they are
modelled bit-for-bit: UTF-8 encoding, RFC 1321 padding and rounds over
32-bit words (`Nat` reduced modulo `2^32`), lowercase hex output. -/

/-- `2 ^ 32`, the word modulus of MD5. -/
def M32 : Nat := 4294967296

/-- UTF-8 encoding of one character, as a list of byte values
(`str.encode()` with the default codec). -/
def utf8EncodeChar (c : Char) : List Nat :=
  let n := c.toNat
  if n < 128 then [n]
  else if n < 2048 then
    [192 ||| (n >>> 6), 128 ||| (n &&& 63)]
  else if n < 65536 then
    [224 ||| (n >>> 12), 128 ||| ((n >>> 6) &&& 63), 128 ||| (n &&& 63)]
  else
    [240 ||| (n >>> 18), 128 ||| ((n >>> 12) &&& 63),
     128 ||| ((n >>> 6) &&& 63), 128 ||| (n &&& 63)]

/-- UTF-8 bytes of a string (`s.encode()`). -/
def utf8Bytes (s : String) : List Nat :=
  s.data.flatMap utf8EncodeChar

/-- The 64 MD5 round constants `K[i] = floor(2^32 * |sin(i + 1)|)`. -/
def md5K : List Nat :=
  [0xd76aa478, 0xe8c7b756, 0x242070db, 0xc1bdceee,
   0xf57c0faf, 0x4787c62a, 0xa8304613, 0xfd469501,
   0x698098d8, 0x8b44f7af, 0xffff5bb1, 0x895cd7be,
   0x6b901122, 0xfd987193, 0xa679438e, 0x49b40821,
   0xf61e2562, 0xc040b340, 0x265e5a51, 0xe9b6c7aa,
   0xd62f105d, 0x02441453, 0xd8a1e681, 0xe7d3fbc8,
   0x21e1cde6, 0xc33707d6, 0xf4d50d87, 0x455a14ed,
   0xa9e3e905, 0xfcefa3f8, 0x676f02d9, 0x8d2a4c8a,
   0xfffa3942, 0x8771f681, 0x6d9d6122, 0xfde5380c,
   0xa4beea44, 0x4bdecfa9, 0xf6bb4b60, 0xbebfbc70,
   0x289b7ec6, 0xeaa127fa, 0xd4ef3085, 0x04881d05,
   0xd9d4d039, 0xe6db99e5, 0x1fa27cf8, 0xc4ac5665,
   0xf4292244, 0x432aff97, 0xab9423a7, 0xfc93a039,
   0x655b59c3, 0x8f0ccc92, 0xffeff47d, 0x85845dd1,
   0x6fa87e4f, 0xfe2ce6e0, 0xa3014314, 0x4e0811a1,
   0xf7537e82, 0xbd3af235, 0x2ad7d2bb, 0xeb86d391]

/-- The MD5 per-round left-rotation amounts. -/
def md5s (i : Nat) : Nat :=
  let tbl :=
    if i < 16 then [7, 12, 17, 22]
    else if i < 32 then [5, 9, 14, 20]
    else if i < 48 then [4, 11, 16, 23]
    else [6, 10, 15, 21]
  tbl.getD (i % 4) 0

/-- 32-bit bitwise complement. -/
def notc (x : Nat) : Nat := 4294967295 ^^^ x

/-- 32-bit left rotation by `s` places (`0 < s < 32` in every MD5 round). -/
def rotl32 (x s : Nat) : Nat :=
  ((x <<< s) ||| (x >>> (32 - s))) % M32

/-- The MD5 round function: F, G, H, I depending on the round index. -/
def md5F (i b c d : Nat) : Nat :=
  if i < 16 then (b &&& c) ||| (notc b &&& d)
  else if i < 32 then (d &&& b) ||| (notc d &&& c)
  else if i < 48 then b ^^^ c ^^^ d
  else c ^^^ (b ||| notc d)

/-- The MD5 message-word schedule `g`. -/
def md5g (i : Nat) : Nat :=
  if i < 16 then i
  else if i < 32 then (5 * i + 1) % 16
  else if i < 48 then (3 * i + 5) % 16
  else (7 * i) % 16

/-- `k` little-endian bytes of `n`. -/
def leBytes : Nat → Nat → List Nat
  | 0, _ => []
  | k + 1, n => n % 256 :: leBytes k (n / 256)

/-- A 64-byte block as 16 little-endian 32-bit words. -/
def bytesToWords (block : List Nat) : List Nat :=
  (chunkList 4 block).map (fun w =>
    w.getD 0 0 + 256 * w.getD 1 0 + 65536 * w.getD 2 0 + 16777216 * w.getD 3 0)

/-- One MD5 round on state `(a, b, c, d)` with message words `X`. -/
def md5Step (X : List Nat) (st : Nat × Nat × Nat × Nat) (i : Nat) :
    Nat × Nat × Nat × Nat :=
  let a := st.1
  let b := st.2.1
  let c := st.2.2.1
  let d := st.2.2.2
  let f := (md5F i b c d + a + md5K.getD i 0 + X.getD (md5g i) 0) % M32
  (d, (b + rotl32 f (md5s i)) % M32, b, c)

/-- Process one 64-byte block: 64 rounds, then add into the running state. -/
def md5Block (st : Nat × Nat × Nat × Nat) (block : List Nat) :
    Nat × Nat × Nat × Nat :=
  let X := bytesToWords block
  let r := (List.range 64).foldl (md5Step X) st
  ((st.1 + r.1) % M32, (st.2.1 + r.2.1) % M32,
   (st.2.2.1 + r.2.2.1) % M32, (st.2.2.2 + r.2.2.2) % M32)

/-- MD5 padding: append `0x80`, zero-fill to 56 mod 64, then the original
bit length as a 64-bit little-endian quantity. -/
def md5Pad (msg : List Nat) : List Nat :=
  let len := msg.length
  let zeros := (120 - (len + 1) % 64) % 64
  msg ++ [128] ++ List.replicate zeros 0 ++ leBytes 8 ((8 * len) % (M32 * M32))

/-- The 16-byte MD5 digest of a byte sequence. -/
def md5Bytes (msg : List Nat) : List Nat :=
  let st := (chunkList 64 (md5Pad msg)).foldl md5Block
    (0x67452301, 0xefcdab89, 0x98badcfe, 0x10325476)
  leBytes 4 st.1 ++ leBytes 4 st.2.1 ++ leBytes 4 st.2.2.1 ++ leBytes 4 st.2.2.2

/-- The lowercase hex digit of a value below 16, as emitted by
`hexdigest()`: the code points of `0`-`9` then of `a`-`f`. -/
def hexDigit (n : Nat) : Char :=
  if n < 10 then Char.ofNat (48 + n) else Char.ofNat (87 + n)

/-- The sixteen lowercase hexadecimal digits. -/
def hexDigits : List Char :=
  (List.range 16).map hexDigit

/-- Two lowercase hex characters for one byte. -/
def hexByte (b : Nat) : List Char :=
  [hexDigit (b / 16), hexDigit (b % 16)]

/-- Lowercase hexadecimal rendering of a byte sequence. -/
def bytesToHex (bs : List Nat) : String :=
  String.mk (bs.flatMap hexByte)

/-- `hashlib.md5(s.encode()).hexdigest()`. -/
def md5hex (s : String) : String :=
  bytesToHex (md5Bytes (utf8Bytes s))

/-- `doc.metadata["source"].encode()` succeeds exactly when the metadata
mapping has key `"source"` bound to a string; otherwise the Python raises
(`KeyError` or `AttributeError`) and the run fails. -/
def getSource (d : Document) : Option String :=
  match d.metadata.lookup "source" with
  | some (Value.VStr s) => some s
  | _ => none

/-- The source URLs of the documents, in order; `none` as soon as one
document's metadata lacks a string `"source"` (in the Python the loop at
lines 361-368 raises there and the whole run fails). -/
def sourcesOf : List Document → Option (List String)
  | [] => some []
  | d :: ds =>
    match getSource d, sourcesOf ds with
    | some u, some us => some (u :: us)
    | _, _ => none

/-- What one `docs_embedding` run produces: the intermediate sequences,
the upserted records, the trace, and the three result-metadata entries. -/
structure DocsRun (Q : Type) where
  texts : List String
  embeddings : List (List Q)
  metadatas : List Metadata
  ids : List String
  records : List (String × List Q × Metadata)
  trace : List (Event Q)
  documents_embedded : Nat
  embedding_dimension : Nat
  urls_processed : List String

/-- `docs_embedding` (ingestion.py lines 342-379): one embedding call on all
texts, per-document metadata cleaning and MD5-of-source ids, upsert of the
zipped triples, result metadata `documents_embedded`, `embedding_dimension`
(`len(embeddings[0]) if embeddings else 0`), `urls_processed`.  `none` when
some document's metadata lacks a string `"source"` (the Python raises). -/
def docs_embedding {Q : Type} (embed : List String → List (List Q))
    (docs : List Document) : Option (DocsRun Q) :=
  match sourcesOf docs with
  | none => none
  | some srcs =>
    let texts := docs.map (fun d => d.page_content)
    let embeddings := embed texts
    let metadatas := docs.map (fun d => sanitize d.metadata)
    let doc_ids := srcs.map (fun u => md5hex u)
    some
      { texts := texts
        embeddings := embeddings
        metadatas := metadatas
        ids := doc_ids
        records := zip3 doc_ids embeddings metadatas
        trace := [Event.embedCall texts embeddings]
        documents_embedded := docs.length
        embedding_dimension := match embeddings with | [] => 0 | v :: _ => v.length
        urls_processed := srcs }

/-- What one `docs_scrape_raw` run produces: the returned documents and the
`"pages scraped"` output-metadata count. -/
structure ScrapeRun where
  documents : List Document
  pagesScraped : Nat

/-- `docs_scrape_raw` (ingestion.py lines 285-301): take the first 4 sitemap
URLs (`parse_sitemap()[0:4]`), scrape each in order keeping only non-null
results (with a 0.5 s sleep after every attempt, not modelled further since
it has no effect on the data), and report `len(urls)` as `"pages scraped"`. -/
def docs_scrape_raw (sitemap : List String)
    (scrape : String → Option Document) : ScrapeRun :=
  let urls := sitemap.take 4
  let documents := urls.filterMap scrape
  { documents := documents, pagesScraped := urls.length }

/-- The default `Document` used with `List.getD`. -/
def emptyDoc : Document :=
  { page_content := "", metadata := [] }

/-- Position-wise alignment of the sequences an embedding run derives from
its input documents: all four have one entry per input document, and the
entry at position `i` is computed from the document at position `i` (`f` is
the per-text embedding, `idAt i` the identifier expected at position `i`).
Stated with `List.getD` so the bounds stay explicit. -/
def AlignedSeqs {Q : Type} (f : String → List Q) (docs : List Document)
    (idAt : Nat → String) (texts : List String)
    (embeddings : List (List Q)) (metadatas : List Metadata)
    (ids : List String) : Prop :=
  texts.length = docs.length ∧ embeddings.length = docs.length ∧
  metadatas.length = docs.length ∧ ids.length = docs.length ∧
  ∀ i, i < docs.length →
    texts.getD i "" = (docs.getD i emptyDoc).page_content ∧
    embeddings.getD i [] = f ((docs.getD i emptyDoc).page_content) ∧
    metadatas.getD i [] = sanitize (docs.getD i emptyDoc).metadata ∧
    ids.getD i "" = idAt i

/-! ### Concrete sample inputs, used for the closed instance checks -/

/-- A concrete embedding provider returning one vector per input text, in
order (here the one-dimensional vector holding the text's length). -/
def embedLen : List String → List (List Nat) :=
  fun ts => ts.map (fun s => [s.length])

/-- A concrete provider that silently returns vectors for only the first
two texts (a misbehaving provider, for the truncation scenarios). -/
def embedTwo : List String → List (List Nat) :=
  fun ts => (ts.take 2).map (fun s => [s.length])

/-- A concrete sample document with a string `"source"` plus primitive and
non-primitive metadata values. -/
def sampleDoc (i : Nat) : Document :=
  { page_content := "text " ++ toString i
    metadata :=
      [("source", Value.VStr ("https://docs.dagster.io/page" ++ toString i)),
       ("title", Value.VStr ("Page " ++ toString i)),
       ("depth", Value.VInt 2),
       ("score", Value.VFloat 1072693248),
       ("draft", Value.VBool false),
       ("tags", Value.VList [Value.VStr "docs"]),
       ("owner", Value.VNone)] }

/-- `n` concrete sample documents. -/
def sampleDocs (n : Nat) : List Document :=
  (List.range n).map sampleDoc

/-! ### Structural lemmas about the batching model -/

theorem pyRange_succ (n B : Nat) :
    pyRange (n + 1) B = pyRange n B ++ (if n % B = 0 then [n] else []) := by
  by_cases h : n % B = 0 <;>
    simp [pyRange, List.range_succ, List.filter_append, h]

/-- Ceiling division `(n + B - 1) / B` agrees with `n / B`, plus one when
`B` does not divide `n`. -/
theorem ceilDiv_eq (n B : Nat) (hB : 0 < B) :
    (n + B - 1) / B = n / B + (if n % B = 0 then 0 else 1) := by
  have hmod := Nat.div_add_mod n B
  have hr : n % B < B := Nat.mod_lt _ hB
  by_cases h : n % B = 0
  · have hq : B * (n / B) = n := by omega
    have hsplit : n + B - 1 = B * (n / B) + (B - 1) := by omega
    rw [hsplit, Nat.mul_add_div hB,
      Nat.div_eq_of_lt (show B - 1 < B by omega)]
    simp [h]
  · have hsplit : n + B - 1 = B * (n / B) + (n % B - 1 + B) := by omega
    rw [hsplit, Nat.mul_add_div hB, Nat.add_div_right _ hB,
      Nat.div_eq_of_lt (show n % B - 1 < B by omega)]
    simp [h]

/-- `pyRange n B` is exactly the first `⌈n / B⌉` multiples of `B`. -/
theorem pyRange_eq (B : Nat) (hB : 0 < B) (n : Nat) :
    pyRange n B = (List.range ((n + B - 1) / B)).map (fun k => k * B) := by
  induction n with
  | zero => simp [pyRange, Nat.div_eq_of_lt (by omega : B - 1 < B)]
  | succ n ih =>
    rw [pyRange_succ, ih]
    have hsucc : n + 1 + B - 1 = n + B := by omega
    rw [hsucc, Nat.add_div_right _ hB]
    by_cases h : n % B = 0
    · have hm : (n + B - 1) / B = n / B := by rw [ceilDiv_eq n B hB]; simp [h]
      have hmul : n / B * B = n := Nat.div_mul_cancel (Nat.dvd_of_mod_eq_zero h)
      rw [hm, List.range_succ]
      simp [h, hmul]
    · have hm : (n + B - 1) / B = n / B + 1 := by rw [ceilDiv_eq n B hB]; simp [h]
      rw [hm]
      simp [h]

theorem chunkList_nil {α : Type} (B : Nat) : chunkList B ([] : List α) = [] := rfl

/-- The number of chunks is `⌈n / B⌉`. -/
theorem chunkList_length {α : Type} (B : Nat) (hB : 0 < B) (xs : List α) :
    (chunkList B xs).length = (xs.length + B - 1) / B := by
  simp [chunkList, pyRange_eq B hB]

/-- Unfolding lemma: for a nonempty list the first chunk is `xs.take B` and
the remaining chunks are those of `xs.drop B`. -/
theorem chunkList_cons {α : Type} (B : Nat) (hB : 0 < B) (xs : List α)
    (hxs : xs ≠ []) :
    chunkList B xs = xs.take B :: chunkList B (xs.drop B) := by
  have hn : 0 < xs.length := List.length_pos.mpr hxs
  rw [chunkList, chunkList, pyRange_eq B hB, pyRange_eq B hB]
  have hlen : (xs.drop B).length = xs.length - B := List.length_drop B xs
  have hm : (xs.length + B - 1) / B = ((xs.drop B).length + B - 1) / B + 1 := by
    rw [hlen]
    rcases le_or_lt xs.length B with hle | hlt
    · have h1 : xs.length - B = 0 := by omega
      have h2 : xs.length + B - 1 = (xs.length - 1) + B := by omega
      rw [h1, h2, Nat.add_div_right _ hB,
        Nat.div_eq_of_lt (show xs.length - 1 < B by omega),
        Nat.div_eq_of_lt (show 0 + B - 1 < B by omega)]
    · have h2 : xs.length + B - 1 = (xs.length - B + B - 1) + B := by omega
      rw [h2, Nat.add_div_right _ hB]
  rw [hm, List.range_succ_eq_map]
  simp only [List.map_cons, List.map_map]
  rw [List.cons_eq_cons]
  refine ⟨by simp [pySlice], ?_⟩
  apply List.map_congr_left
  intro k _
  simp only [Function.comp_apply, pySlice, Nat.succ_eq_add_one]
  rw [List.drop_drop, Nat.add_sub_cancel_left, Nat.add_sub_cancel_left]
  have h3 : (k + 1) * B = B + k * B := by ring
  rw [h3]

/-- Each chunk has size at most `B`. -/
theorem chunkList_size_le {α : Type} (B : Nat) (xs : List α) :
    ∀ c ∈ chunkList B xs, c.length ≤ B := by
  intro c hc
  simp only [chunkList, List.mem_map] at hc
  obtain ⟨i, _, rfl⟩ := hc
  simp only [pySlice, List.length_take, List.length_drop]
  omega

/-- Concatenating the chunks gives back the original list. -/
theorem chunkList_flatten {α : Type} (B : Nat) (hB : 0 < B) (xs : List α) :
    (chunkList B xs).flatten = xs := by
  generalize hn : xs.length = n
  induction n using Nat.strong_induction_on generalizing xs with
  | _ n ih =>
    cases xs with
    | nil => simp [chunkList_nil]
    | cons x t =>
      rw [chunkList_cons B hB (x :: t) (by simp)]
      have hdrop : ((x :: t).drop B).length < n := by
        simp only [List.length_drop, List.length_cons] at hn ⊢
        omega
      rw [List.flatten_cons, ih _ (hn ▸ hdrop) _ rfl]
      exact List.take_append_drop B (x :: t)

/-- The embeddings accumulated by the batched loop are the per-chunk
provider results, concatenated in chunk order. -/
theorem batchLoop_fst {Q : Type} (embed : List String → List (List Q))
    (cs : List (List String)) :
    (batchLoop embed cs).1 = cs.flatMap embed := by
  induction cs with
  | nil => rfl
  | cons c cs ih => simp [batchLoop, ih]

/-- The trace produced by the batched loop: per chunk, one provider call
immediately followed by one one-second sleep. -/
theorem batchLoop_snd {Q : Type} (embed : List String → List (List Q))
    (cs : List (List String)) :
    (batchLoop embed cs).2 =
      cs.flatMap (fun c => [Event.embedCall c (embed c), Event.sleep 1000]) := by
  induction cs with
  | nil => rfl
  | cons c cs ih => simp [batchLoop, ih]

theorem countCalls_batchLoop {Q : Type} (embed : List String → List (List Q))
    (cs : List (List String)) :
    countCalls (batchLoop embed cs).2 = cs.length := by
  induction cs with
  | nil => rfl
  | cons c cs ih => simp [batchLoop, countCalls, ih]

theorem callInputs_batchLoop {Q : Type} (embed : List String → List (List Q))
    (cs : List (List String)) :
    callInputs (batchLoop embed cs).2 = cs := by
  induction cs with
  | nil => rfl
  | cons c cs ih => simp [batchLoop, callInputs, ih]

theorem zip3_length {α β γ : Type} (as : List α) (bs : List β) (cs : List γ) :
    (zip3 as bs cs).length = min as.length (min bs.length cs.length) := by
  simp [zip3]

/-- With an order-preserving, one-vector-per-text provider, batching and
concatenating is the same as embedding every text in order. -/
theorem batchedEmbed_fst_pointwise {Q : Type} (f : String → List Q)
    (embed : List String → List (List Q)) (hembed : ∀ ts, embed ts = ts.map f)
    (B : Nat) (hB : 0 < B) (texts : List String) :
    (batchedEmbed embed B texts).1 = texts.map f := by
  have he : embed = fun ts => ts.map f := funext hembed
  subst he
  rw [batchedEmbed, batchLoop_fst, List.flatMap_def]
  have : List.map (fun ts => List.map f ts) (chunkList B texts) =
      List.map (List.map f) (chunkList B texts) := rfl
  rw [this, ← List.map_flatten, chunkList_flatten B hB]

theorem sourcesOf_length (docs : List Document) (srcs : List String)
    (h : sourcesOf docs = some srcs) : srcs.length = docs.length := by
  induction docs generalizing srcs with
  | nil =>
    simp only [sourcesOf, Option.some.injEq] at h
    subst h
    rfl
  | cons d ds ih =>
    simp only [sourcesOf] at h
    cases hg : getSource d with
    | none => rw [hg] at h; simp at h
    | some u =>
      cases hs : sourcesOf ds with
      | none => rw [hg, hs] at h; simp at h
      | some us =>
        rw [hg, hs] at h
        simp only [Option.some.injEq] at h
        subst h
        simp [ih us hs]

theorem sourcesOf_getD (docs : List Document) (srcs : List String)
    (h : sourcesOf docs = some srcs) :
    ∀ i, i < docs.length →
      getSource (docs.getD i emptyDoc) = some (srcs.getD i "") := by
  induction docs generalizing srcs with
  | nil => intro i hi; simp at hi
  | cons d ds ih =>
    simp only [sourcesOf] at h
    cases hg : getSource d with
    | none => rw [hg] at h; simp at h
    | some u =>
      cases hs : sourcesOf ds with
      | none => rw [hg, hs] at h; simp at h
      | some us =>
        rw [hg, hs] at h
        simp only [Option.some.injEq] at h
        subst h
        intro i hi
        cases i with
        | zero => simpa using hg
        | succ j =>
          simp only [List.getD_cons_succ]
          exact ih us hs j (by simpa using hi)

/-- Unfolding `docs_embedding` on a successful run. -/
theorem docs_embedding_eq {Q : Type} (embed : List String → List (List Q))
    (docs : List Document) (srcs : List String)
    (hsrc : sourcesOf docs = some srcs) :
    docs_embedding embed docs = some
      { texts := docs.map (fun d => d.page_content)
        embeddings := embed (docs.map (fun d => d.page_content))
        metadatas := docs.map (fun d => sanitize d.metadata)
        ids := srcs.map (fun u => md5hex u)
        records := zip3 (srcs.map (fun u => md5hex u))
          (embed (docs.map (fun d => d.page_content)))
          (docs.map (fun d => sanitize d.metadata))
        trace := [Event.embedCall (docs.map (fun d => d.page_content))
          (embed (docs.map (fun d => d.page_content)))]
        documents_embedded := docs.length
        embedding_dimension :=
          match embed (docs.map (fun d => d.page_content)) with
          | [] => 0
          | v :: _ => v.length
        urls_processed := srcs } := by
  simp [docs_embedding, hsrc]

/-! ### The claims -/

/-- C3: for every metadata mapping `M`, `sanitize M` consists of exactly
the entries of `M` whose value is a string, integer, float or boolean, in
the original order (it is a sublist of `M`), and no others.  `sanitize` is
a total function, so it cannot fail on unsupported value types: they are
silently dropped, as the membership equivalence shows. -/
theorem sanitize_exact (M : Metadata) :
    List.Sublist (sanitize M) M ∧
    (∀ k (v : Value), (k, v) ∈ sanitize M ↔ (k, v) ∈ M ∧ isPrimitive v = true) := by
  refine ⟨List.filter_sublist M, ?_⟩
  intro k v
  simp [sanitize, List.mem_filter]

/-- C7: metadata sanitization is idempotent. -/
theorem sanitize_idem (M : Metadata) : sanitize (sanitize M) = sanitize M := by
  simp [sanitize, List.filter_filter]

/-- C6: in the issues and discussions embedding assets the identifier at
zero-based position `i` is `str(i)`, the decimal representation of `i`,
for every `i` below the batch length. -/
theorem sequential_ids {Q : Type} (embed : List String → List (List Q))
    (docs : List Document) :
    (github_issues_embeddings embed docs).ids.length = docs.length ∧
    (github_discussions_embeddings embed docs).ids.length = docs.length ∧
    (∀ i, i < docs.length →
      (github_issues_embeddings embed docs).ids.getD i "" = toString i) ∧
    (∀ i, i < docs.length →
      (github_discussions_embeddings embed docs).ids.getD i "" = toString i) := by
  refine ⟨by simp [github_issues_embeddings],
    by simp [github_discussions_embeddings], ?_, ?_⟩
  · intro i hi
    rw [List.getD_eq_getElem _ _ (by simp [github_issues_embeddings]; omega)]
    simp [github_issues_embeddings]
  · intro i hi
    rw [List.getD_eq_getElem _ _ (by simp [github_discussions_embeddings]; omega)]
    simp [github_discussions_embeddings]

/-- C6, closed instance: with three concrete documents both assets assign
id `"2"` at position 2. -/
theorem sequential_ids_witness :
    2 < (sampleDocs 3).length ∧
    (github_issues_embeddings embedLen (sampleDocs 3)).ids.getD 2 "" = "2" ∧
    (github_discussions_embeddings embedLen (sampleDocs 3)).ids.getD 2 "" = "2" := by
  refine ⟨by decide, ?_, ?_⟩
  · exact (sequential_ids embedLen (sampleDocs 3)).2.2.1 2 (by decide)
  · exact (sequential_ids embedLen (sampleDocs 3)).2.2.2 2 (by decide)

/-! ### Byte-level lemmas about the MD5 model -/

theorem leBytes_length (k : Nat) : ∀ n, (leBytes k n).length = k := by
  induction k with
  | zero => intro n; rfl
  | succ k ih => intro n; simp [leBytes, ih]

theorem leBytes_lt (k : Nat) : ∀ n, ∀ b ∈ leBytes k n, b < 256 := by
  induction k with
  | zero => intro n b hb; simp [leBytes] at hb
  | succ k ih =>
    intro n b hb
    simp only [leBytes, List.mem_cons] at hb
    rcases hb with h | h
    · subst h; exact Nat.mod_lt _ (by omega)
    · exact ih _ b h

theorem md5Bytes_length (msg : List Nat) : (md5Bytes msg).length = 16 := by
  simp [md5Bytes, leBytes_length]

theorem md5Bytes_lt (msg : List Nat) : ∀ b ∈ md5Bytes msg, b < 256 := by
  intro b hb
  simp only [md5Bytes, List.mem_append] at hb
  rcases hb with ((h | h) | h) | h <;> exact leBytes_lt _ _ b h

theorem hexDigit_mem (n : Nat) (h : n < 16) : hexDigit n ∈ hexDigits := by
  simp only [hexDigits, List.mem_map]
  exact ⟨n, List.mem_range.mpr h, rfl⟩

theorem hexDigit_inj : ∀ a b : Nat, a < 16 → b < 16 →
    hexDigit a = hexDigit b → a = b := by
  intro a b ha hb
  interval_cases a <;> interval_cases b <;> decide

/-- Lowercase-hex rendering is injective on genuine byte sequences. -/
theorem bytesToHex_inj : ∀ bs₁ bs₂ : List Nat, (∀ b ∈ bs₁, b < 256) →
    (∀ b ∈ bs₂, b < 256) → bytesToHex bs₁ = bytesToHex bs₂ → bs₁ = bs₂ := by
  intro bs₁
  induction bs₁ with
  | nil =>
    intro bs₂ _ _ h
    cases bs₂ with
    | nil => rfl
    | cons b t =>
      simp only [bytesToHex] at h
      injection h with h
      simp [hexByte] at h
  | cons b₁ t₁ ih =>
    intro bs₂ h1 h2 h
    cases bs₂ with
    | nil =>
      simp only [bytesToHex] at h
      injection h with h
      simp [hexByte] at h
    | cons b₂ t₂ =>
      simp only [bytesToHex] at h
      injection h with h
      simp only [List.flatMap_cons, hexByte, List.cons_append, List.nil_append,
        List.cons.injEq] at h
      obtain ⟨hhi, hlo, hrest⟩ := h
      have hb1 : b₁ < 256 := h1 b₁ (by simp)
      have hb2 : b₂ < 256 := h2 b₂ (by simp)
      have e1 : b₁ / 16 = b₂ / 16 :=
        hexDigit_inj _ _ (by omega) (by omega) hhi
      have e2 : b₁ % 16 = b₂ % 16 :=
        hexDigit_inj _ _ (by omega) (by omega) hlo
      have hb : b₁ = b₂ := by omega
      subst hb
      have ht : t₁ = t₂ := by
        apply ih t₂ (fun b hb => h1 b (by simp [hb])) (fun b hb => h2 b (by simp [hb]))
        simpa only [bytesToHex] using congrArg String.mk hrest
      simp [ht]

theorem flatMap_hexByte_length :
    ∀ bs : List Nat, (bs.flatMap hexByte).length = 2 * bs.length := by
  intro bs
  induction bs with
  | nil => rfl
  | cons b t ih => simp [hexByte, ih]; omega

/-- `hexdigest()` always yields 32 characters. -/
theorem md5hex_length (u : String) : (md5hex u).length = 32 := by
  have h := flatMap_hexByte_length (md5Bytes (utf8Bytes u))
  simp [md5hex, bytesToHex, String.length, h, md5Bytes_length]

/-- `hexdigest()` only emits lowercase hex characters. -/
theorem md5hex_chars (u : String) : ∀ c ∈ (md5hex u).data, c ∈ hexDigits := by
  intro c hc
  have hc' : c ∈ (md5Bytes (utf8Bytes u)).flatMap hexByte := hc
  rcases List.mem_flatMap.mp hc' with ⟨b, hb, hcb⟩
  have hblt : b < 256 := md5Bytes_lt _ b hb
  simp only [hexByte, List.mem_cons, List.not_mem_nil, or_false] at hcb
  rcases hcb with h | h <;> subst h
  · exact hexDigit_mem _ (by omega)
  · exact hexDigit_mem _ (by omega)

/-- Equal hex ids force equal MD5 digests. -/
theorem md5hex_eq_digest_eq (u₁ u₂ : String) (h : md5hex u₁ = md5hex u₂) :
    md5Bytes (utf8Bytes u₁) = md5Bytes (utf8Bytes u₂) :=
  bytesToHex_inj _ _ (md5Bytes_lt _) (md5Bytes_lt _) h

/-- RFC 1321 test vector: the MD5 model agrees with `hashlib` on the empty
string. -/
theorem md5hex_rfc_empty : md5hex "" = "d41d8cd98f00b204e9800998ecf8427e" := by
  decide

/-- RFC 1321 test vector: the MD5 model agrees with `hashlib` on `"abc"`. -/
theorem md5hex_rfc_abc : md5hex "abc" = "900150983cd24fb0d6963f7d28e17f72" := by
  decide

/-! ### `List.getD` access lemmas -/

theorem getD_map_of_lt {α β : Type} (g : α → β) (l : List α) (d : β)
    (dl : α) (i : Nat) (h : i < l.length) :
    (l.map g).getD i d = g (l.getD i dl) := by
  rw [List.getD_eq_getElem _ _ (by simpa using h),
    List.getD_eq_getElem _ _ h, List.getElem_map]

theorem getD_range (n i : Nat) (h : i < n) : (List.range n).getD i 0 = i := by
  rw [List.getD_eq_getElem _ _ (by simpa using h), List.getElem_range]

/-- C2: for `N` texts and batch size `B > 0` the batched embedding step
partitions the texts into consecutive chunks of at most `B`, makes exactly
`⌈N / B⌉` provider calls, one per chunk in order, and (for a provider that
returns one vector per text, in order) the concatenated result embeds the
original texts in their original order.  The discussions asset runs
exactly this step with `B = 20`. -/
theorem batching_ceil_and_order {Q : Type} (f : String → List Q)
    (embed : List String → List (List Q)) (hembed : ∀ ts, embed ts = ts.map f)
    (B : Nat) (hB : 0 < B) (texts : List String) :
    countCalls (batchedEmbed embed B texts).2 = (texts.length + B - 1) / B ∧
    callInputs (batchedEmbed embed B texts).2 = chunkList B texts ∧
    (∀ c ∈ chunkList B texts, c.length ≤ B) ∧
    (chunkList B texts).flatten = texts ∧
    (batchedEmbed embed B texts).1 = texts.map f ∧
    (∀ docs : List Document, (github_discussions_embeddings embed docs).embeddings =
      (batchedEmbed embed 20 (docs.map (fun d => d.page_content))).1) := by
  refine ⟨?_, ?_, chunkList_size_le B texts, chunkList_flatten B hB texts,
    batchedEmbed_fst_pointwise f embed hembed B hB texts, fun docs => rfl⟩
  · rw [batchedEmbed, countCalls_batchLoop, chunkList_length B hB]
  · rw [batchedEmbed, callInputs_batchLoop]

/-- C2, closed instance: 25 texts with batch size 20 give 2 provider calls
of sizes 20 and 5, and 25 embeddings in the original order. -/
theorem batching_ceil_and_order_witness :
    0 < 20 ∧
    countCalls (batchedEmbed embedLen 20 ((List.range 25).map toString)).2 = 2 ∧
    (callInputs (batchedEmbed embedLen 20 ((List.range 25).map toString)).2).map
      List.length = [20, 5] ∧
    (batchedEmbed embedLen 20 ((List.range 25).map toString)).1 =
      ((List.range 25).map toString).map (fun s => [s.length]) := by
  have h := batching_ceil_and_order (fun s => [s.length]) embedLen
    (fun ts => rfl) 20 (by decide) ((List.range 25).map toString)
  exact ⟨by decide, h.1.trans (by decide), by decide, h.2.2.2.2.1⟩

/-- C8: the trace of the batched embedding step is, chunk by chunk in
order, one provider call immediately followed by one fixed one-second
sleep — so a pause follows every call (the source also pauses after the
last chunk, which the claim's "optionally" allows) and no provider call
occurs between a chunk's call and its pause.  The number of calls
interleaved this way is `⌈N / B⌉`, and the discussions asset's trace is
exactly this step's trace with `B = 20`. -/
theorem pause_after_each_call {Q : Type} (embed : List String → List (List Q))
    (B : Nat) (hB : 0 < B) (texts : List String) :
    (batchedEmbed embed B texts).2 =
      (chunkList B texts).flatMap
        (fun c => [Event.embedCall c (embed c), Event.sleep 1000]) ∧
    countCalls (batchedEmbed embed B texts).2 = (texts.length + B - 1) / B ∧
    (∀ docs : List Document, (github_discussions_embeddings embed docs).trace =
      (batchedEmbed embed 20 (docs.map (fun d => d.page_content))).2) := by
  refine ⟨batchLoop_snd embed (chunkList B texts), ?_, fun docs => rfl⟩
  rw [batchedEmbed, countCalls_batchLoop, chunkList_length B hB]

/-- C8, closed instance: with 25 texts and batch size 20 the trace is two
call/sleep pairs. -/
theorem pause_after_each_call_witness :
    0 < 20 ∧
    (batchedEmbed embedLen 20 ((List.range 25).map toString)).2 =
      (chunkList 20 ((List.range 25).map toString)).flatMap
        (fun c => [Event.embedCall c (embedLen c), Event.sleep 1000]) ∧
    countCalls (batchedEmbed embedLen 20 ((List.range 25).map toString)).2 = 2 := by
  have h := pause_after_each_call embedLen 20 (by decide)
    ((List.range 25).map toString)
  exact ⟨by decide, h.1, h.2.1.trans (by decide)⟩

/-- C4 is false as stated: on an empty document list the issues asset
still makes one embedding-provider call (with an empty input list), so the
number of provider calls is not zero. -/
theorem empty_run_zero_calls_counterexample :
    ¬ countCalls (github_issues_embeddings embedLen ([] : List Document)).trace
        = 0 := by
  decide

/-- C4, amended: on an empty document list the batched discussions asset
makes zero provider calls, while the issues and docs assets each make
exactly one provider call whose input list is empty (`embeddings.create`
is invoked unconditionally there); in all three assets the upsert receives
no records and every reported count is zero. -/
theorem empty_run_amended {Q : Type} (embed : List String → List (List Q))
    (hlen : ∀ ts, (embed ts).length = ts.length) :
    (github_discussions_embeddings embed ([] : List Document)).trace = [] ∧
    countCalls (github_discussions_embeddings embed ([] : List Document)).trace
      = 0 ∧
    (github_discussions_embeddings embed ([] : List Document)).records = [] ∧
    (github_discussions_embeddings embed ([] : List Document)).resultCount = 0 ∧
    (github_issues_embeddings embed ([] : List Document)).trace
      = [Event.embedCall [] (embed [])] ∧
    countCalls (github_issues_embeddings embed ([] : List Document)).trace
      = 1 ∧
    (github_issues_embeddings embed ([] : List Document)).records = [] ∧
    (github_issues_embeddings embed ([] : List Document)).resultCount = 0 ∧
    ∃ r : DocsRun Q, docs_embedding embed ([] : List Document) = some r ∧
      r.trace = [Event.embedCall [] (embed [])] ∧ countCalls r.trace = 1 ∧
      r.records = [] ∧ r.documents_embedded = 0 ∧
      r.embedding_dimension = 0 ∧ r.urls_processed = [] := by
  have hnil : embed ([] : List String) = [] := by
    have := hlen []
    simpa using List.length_eq_zero.mp (by simpa using this)
  refine ⟨rfl, rfl, rfl, rfl, rfl, rfl, ?_, rfl, ?_⟩
  · show zip3 [] (embed []) [] = []
    rw [hnil]; rfl
  · refine ⟨_, docs_embedding_eq embed [] [] rfl, rfl, rfl, ?_, rfl, ?_, rfl⟩
    · show zip3 ([].map fun u => md5hex u) (embed []) [] = []
      rw [hnil]; rfl
    · show (match embed (([] : List Document).map (fun d => d.page_content)) with
        | [] => 0
        | v :: _ => v.length) = 0
      rw [show (([] : List Document).map (fun d => d.page_content)) = [] from rfl,
        hnil]

/-- C4, closed instance of the amended statement with a concrete provider. -/
theorem empty_run_amended_witness :
    countCalls (github_discussions_embeddings embedLen ([] : List Document)).trace
        = 0 ∧
    countCalls (github_issues_embeddings embedLen ([] : List Document)).trace
        = 1 ∧
    (github_issues_embeddings embedLen ([] : List Document)).records = [] := by
  have h := empty_run_amended embedLen (fun ts => by simp [embedLen])
  exact ⟨h.2.1, h.2.2.2.2.2.1, h.2.2.2.2.2.2.1⟩

/-- C9: in every embedding asset the records passed to `upsert` are the
Python `zip` of the id, embedding and metadata sequences, so their number
is the minimum of the three lengths — if the provider returns fewer
vectors than texts, the surplus ids and metadata are silently dropped
rather than raising. -/
theorem upsert_records_min {Q : Type} (embed : List String → List (List Q))
    (docs : List Document) :
    (github_issues_embeddings embed docs).records.length =
      min (github_issues_embeddings embed docs).ids.length
        (min (github_issues_embeddings embed docs).embeddings.length
          (github_issues_embeddings embed docs).metadatas.length) ∧
    (github_discussions_embeddings embed docs).records.length =
      min (github_discussions_embeddings embed docs).ids.length
        (min (github_discussions_embeddings embed docs).embeddings.length
          (github_discussions_embeddings embed docs).metadatas.length) ∧
    ∀ r : DocsRun Q, docs_embedding embed docs = some r →
      r.records.length =
        min r.ids.length (min r.embeddings.length r.metadatas.length) := by
  refine ⟨zip3_length _ _ _, zip3_length _ _ _, ?_⟩
  intro r hr
  cases hsrc : sourcesOf docs with
  | none => simp [docs_embedding, hsrc] at hr
  | some srcs =>
    rw [docs_embedding_eq embed docs srcs hsrc, Option.some.injEq] at hr
    subst hr
    exact zip3_length _ _ _

/-- C9, closed instance: a provider that returns only two vectors for
three documents leads to two upserted records — the third id and metadata
are silently dropped. -/
theorem upsert_records_min_witness :
    (github_issues_embeddings embedTwo (sampleDocs 3)).ids.length = 3 ∧
    (github_issues_embeddings embedTwo (sampleDocs 3)).embeddings.length = 2 ∧
    (github_issues_embeddings embedTwo (sampleDocs 3)).records.length = 2 := by
  refine ⟨by decide, by decide, ?_⟩
  exact (upsert_records_min embedTwo (sampleDocs 3)).1.trans (by decide)

/-- C10: the scraping asset attempts only the first four sitemap URLs,
keeps exactly the non-null scrape results in order, reports the number of
attempted URLs (at most four) as `"pages scraped"`, and that report can
strictly exceed the number of returned documents. -/
theorem scrape_first_four (sitemap : List String)
    (scrape : String → Option Document) :
    (docs_scrape_raw sitemap scrape).pagesScraped = (sitemap.take 4).length ∧
    (docs_scrape_raw sitemap scrape).pagesScraped ≤ 4 ∧
    (docs_scrape_raw sitemap scrape).documents =
      (sitemap.take 4).filterMap scrape ∧
    (docs_scrape_raw sitemap scrape).documents.length ≤
      (docs_scrape_raw sitemap scrape).pagesScraped ∧
    ∃ sm : List String, ∃ sc : String → Option Document,
      (docs_scrape_raw sm sc).documents.length <
        (docs_scrape_raw sm sc).pagesScraped := by
  refine ⟨rfl, ?_, rfl, List.length_filterMap_le _ _,
    ⟨["https://docs.dagster.io/"], fun _ => none, by decide⟩⟩
  simp only [docs_scrape_raw, List.length_take]
  omega

theorem alignedSeqs_core {Q : Type} (f : String → List Q)
    (docs : List Document) (idAt : Nat → String) (ids : List String)
    (hlen : ids.length = docs.length)
    (hid : ∀ i, i < docs.length → ids.getD i "" = idAt i) :
    AlignedSeqs f docs idAt (docs.map (fun d => d.page_content))
      ((docs.map (fun d => d.page_content)).map f)
      (docs.map (fun d => sanitize d.metadata)) ids := by
  unfold AlignedSeqs
  refine ⟨by simp, by simp, by simp, hlen, ?_⟩
  intro i hi
  refine ⟨getD_map_of_lt _ docs "" emptyDoc i hi, ?_,
    getD_map_of_lt _ docs [] emptyDoc i hi, hid i hi⟩
  rw [List.map_map]
  exact getD_map_of_lt _ docs [] emptyDoc i hi

theorem sequential_getD (n : Nat) :
    ∀ i, i < n → ((List.range n).map (fun j => toString j)).getD i "" = toString i := by
  intro i hi
  rw [getD_map_of_lt _ _ "" 0 i (by simpa using hi), getD_range _ _ hi]

/-- C5: on a successful `docs_embedding` run the id at position `i` is the
lowercase hexadecimal MD5 digest (`hexdigest()`) of document `i`'s source
URL.  In this pure model the id is a function of the URL alone, so the
assignment is deterministic across calls and runs (re-ingesting the same
URL yields the same id, and the id-keyed Pinecone upsert overwrites the
same record); every id is a 32-character lowercase-hex string; and two
URLs receive equal ids only when their MD5 digests collide. -/
theorem md5_ids {Q : Type} (embed : List String → List (List Q))
    (docs : List Document) (srcs : List String)
    (hsrc : sourcesOf docs = some srcs) :
    (∃ r : DocsRun Q, docs_embedding embed docs = some r ∧
      r.ids.length = docs.length ∧
      ∀ i, i < docs.length → r.ids.getD i "" = md5hex (srcs.getD i "")) ∧
    (∀ u : String, (md5hex u).length = 32 ∧
      ∀ c ∈ (md5hex u).data, c ∈ hexDigits) ∧
    (∀ u₁ u₂ : String, md5hex u₁ = md5hex u₂ →
      md5Bytes (utf8Bytes u₁) = md5Bytes (utf8Bytes u₂)) := by
  refine ⟨?_, fun u => ⟨md5hex_length u, md5hex_chars u⟩, md5hex_eq_digest_eq⟩
  have hl := sourcesOf_length docs srcs hsrc
  refine ⟨_, docs_embedding_eq embed docs srcs hsrc, ?_, ?_⟩
  · show (srcs.map (fun u => md5hex u)).length = docs.length
    simp [hl]
  · intro i hi
    show (srcs.map (fun u => md5hex u)).getD i "" = md5hex (srcs.getD i "")
    exact getD_map_of_lt (fun u => md5hex u) srcs "" "" i (by omega)

/-- C5, closed instance: one concrete document; its id is the MD5 hex
digest of its source URL, computed by the kernel. -/
theorem md5_ids_witness :
    sourcesOf (sampleDocs 1) = some ["https://docs.dagster.io/page0"] ∧
    (∃ r : DocsRun Nat, docs_embedding embedLen (sampleDocs 1) = some r ∧
      r.ids.getD 0 "" = "3a4bc0748b9a47393d4122332ea63782") := by
  have h := (md5_ids embedLen (sampleDocs 1)
    ["https://docs.dagster.io/page0"] rfl).1
  obtain ⟨r, hr, _, hid⟩ := h
  refine ⟨rfl, r, hr, ?_⟩
  rw [hid 0 (by decide)]
  decide

/-- C1: for all three embedding assets, assuming the provider returns one
vector per input text in order (modelled pointwise by `f`), the text,
embedding, sanitized-metadata and id sequences each have exactly one entry
per input document, and position `i` of every sequence is computed from
the document at position `i` (sequential ids for issues/discussions,
MD5-of-source ids for docs).  The GitHub assets never read `"source"`, so
their conjuncts hold for arbitrary document lists; only the docs conjunct
is conditioned on every document carrying a string `"source"` — the
precondition for that run to complete at all. -/
theorem embedding_run_alignment {Q : Type}
    (embed : List String → List (List Q)) (f : String → List Q)
    (hembed : ∀ ts, embed ts = ts.map f) (docs : List Document) :
    AlignedSeqs f docs (fun i => toString i)
      (github_issues_embeddings embed docs).texts
      (github_issues_embeddings embed docs).embeddings
      (github_issues_embeddings embed docs).metadatas
      (github_issues_embeddings embed docs).ids ∧
    AlignedSeqs f docs (fun i => toString i)
      (github_discussions_embeddings embed docs).texts
      (github_discussions_embeddings embed docs).embeddings
      (github_discussions_embeddings embed docs).metadatas
      (github_discussions_embeddings embed docs).ids ∧
    ∀ srcs : List String, sourcesOf docs = some srcs →
      ∃ r : DocsRun Q, docs_embedding embed docs = some r ∧
        AlignedSeqs f docs (fun i => md5hex (srcs.getD i ""))
          r.texts r.embeddings r.metadatas r.ids := by
  have hseq : ∀ i, i < docs.length →
      ((List.range (docs.map (fun d => d.page_content)).length).map
        (fun j => toString j)).getD i "" = toString i := by
    intro i hi
    rw [List.length_map]
    exact sequential_getD docs.length i hi
  refine ⟨?_, ?_, ?_⟩
  · show AlignedSeqs f docs (fun i => toString i)
      (docs.map (fun d => d.page_content))
      (embed (docs.map (fun d => d.page_content)))
      (docs.map (fun d => sanitize d.metadata))
      ((List.range (docs.map (fun d => d.page_content)).length).map
        (fun j => toString j))
    rw [hembed (docs.map (fun d => d.page_content))]
    exact alignedSeqs_core f docs _ _ (by simp) hseq
  · show AlignedSeqs f docs (fun i => toString i)
      (docs.map (fun d => d.page_content))
      (batchedEmbed embed 20 (docs.map (fun d => d.page_content))).1
      (docs.map (fun d => sanitize d.metadata))
      ((List.range (docs.map (fun d => d.page_content)).length).map
        (fun j => toString j))
    rw [batchedEmbed_fst_pointwise f embed hembed 20 (by omega)
      (docs.map (fun d => d.page_content))]
    exact alignedSeqs_core f docs _ _ (by simp) hseq
  · intro srcs hsrc
    have hl := sourcesOf_length docs srcs hsrc
    refine ⟨_, docs_embedding_eq embed docs srcs hsrc, ?_⟩
    show AlignedSeqs f docs (fun i => md5hex (srcs.getD i ""))
      (docs.map (fun d => d.page_content))
      (embed (docs.map (fun d => d.page_content)))
      (docs.map (fun d => sanitize d.metadata))
      (srcs.map (fun u => md5hex u))
    rw [hembed (docs.map (fun d => d.page_content))]
    apply alignedSeqs_core f docs _ _ (by simp [hl])
    intro i hi
    exact getD_map_of_lt (fun u => md5hex u) srcs "" "" i (by omega)

/-- C1, closed instance: two concrete documents, concrete provider; the
GitHub-asset conjunct and the docs-asset conjunct are both exercised. -/
theorem embedding_run_alignment_witness :
    sourcesOf (sampleDocs 2) = some
      ["https://docs.dagster.io/page0", "https://docs.dagster.io/page1"] ∧
    AlignedSeqs (fun s => [s.length]) (sampleDocs 2) (fun i => toString i)
      (github_issues_embeddings embedLen (sampleDocs 2)).texts
      (github_issues_embeddings embedLen (sampleDocs 2)).embeddings
      (github_issues_embeddings embedLen (sampleDocs 2)).metadatas
      (github_issues_embeddings embedLen (sampleDocs 2)).ids ∧
    (∃ r : DocsRun Nat, docs_embedding embedLen (sampleDocs 2) = some r ∧
      AlignedSeqs (fun s => [s.length]) (sampleDocs 2)
        (fun i => md5hex
          (["https://docs.dagster.io/page0",
            "https://docs.dagster.io/page1"].getD i ""))
        r.texts r.embeddings r.metadatas r.ids) := by
  have h := embedding_run_alignment embedLen (fun s => [s.length])
    (fun ts => rfl) (sampleDocs 2)
  exact ⟨rfl, h.1,
    h.2.2 ["https://docs.dagster.io/page0", "https://docs.dagster.io/page1"] rfl⟩
